import Mathlib

/-!
Verification of the in-memory document store in `src/backend/database.py`
(class `InMemoryCollection`): value model, path resolver, query evaluator,
update applier, aggregation interpreter and the store surface
(`insert_one`, `find_one`, `update_one`, `aggregate`).

Python values reachable by the store are modelled by the tagged union
`Value` (None, bool, int, str, list, dict with string keys; the repository
only ever stores these shapes, and numbers in the repository are integers,
so `num` carries an `Int`).  Python exceptions are modelled by `Except PyErr`.
-/

set_option maxHeartbeats 1000000

namespace DbSpec

/-- Python exception kinds raised by the code under study. -/
inductive PyErr : Type where
  | valueError : PyErr
  | typeError : PyErr
  | attributeError : PyErr
  | notImplementedError : PyErr
  deriving DecidableEq

mutual
/-- Tagged model of the Python values stored in documents. -/
inductive Value : Type where
  | null : Value
  | bool : Bool → Value
  | num : Int → Value
  | str : String → Value
  | seq : VList → Value
  | map : Fields → Value

/-- A Python list of values. -/
inductive VList : Type where
  | nil : VList
  | cons : Value → VList → VList

/-- A Python dict with string keys, in insertion order. -/
inductive Fields : Type where
  | nil : Fields
  | cons : String → Value → Fields → Fields
end

/-- `d[key]` lookup on an insertion-ordered dict. -/
def dictLookup : Fields → String → Option Value
  | .nil, _ => none
  | .cons k v rest, key => if k == key then some v else dictLookup rest key

/-- `d.get(key)`: the value at `key`, or Python `None` when absent. -/
def dictGet (d : Fields) (key : String) : Value :=
  match dictLookup d key with
  | some v => v
  | none => Value.null

/-- `d[key] = v`: replace in place when the key exists, append otherwise. -/
def dictSet : Fields → String → Value → Fields
  | .nil, key, v => .cons key v .nil
  | .cons k w rest, key, v =>
      if k == key then .cons k v rest else .cons k w (dictSet rest key v)

/-- Number of entries of a dict. -/
def fieldsLength : Fields → Nat
  | .nil => 0
  | .cons _ _ rest => fieldsLength rest + 1

/-- Length of a Python list. -/
def vlength : VList → Nat
  | .nil => 0
  | .cons _ xs => vlength xs + 1

/-- Append on Python lists. -/
def vappend : VList → VList → VList
  | .nil, ys => ys
  | .cons x xs, ys => .cons x (vappend xs ys)

/-- Conversion of a `VList` to a Lean list, used to iterate at the store level. -/
def vlistToList : VList → List Value
  | .nil => []
  | .cons x xs => x :: vlistToList xs

mutual
/-- Python `==` on the modelled values: structural equality with the
`bool`/`int` numeric coercion (`True == 1`), element-wise on lists, and
key-set/value equality on dicts.  It never raises. -/
def pyEq : Value → Value → Bool
  | .null, .null => true
  | .bool a, .bool b => a == b
  | .bool a, .num b => (if a then (1 : Int) else 0) == b
  | .num a, .bool b => a == (if b then (1 : Int) else 0)
  | .num a, .num b => a == b
  | .str a, .str b => a == b
  | .seq a, .seq b => pyEqList a b
  | .map a, .map b => fieldsLength a == fieldsLength b && pyEqFields a b
  | _, _ => false

/-- Element-wise Python `==` on lists. -/
def pyEqList : VList → VList → Bool
  | .nil, .nil => true
  | .cons a as, .cons b bs => pyEq a b && pyEqList as bs
  | _, _ => false

/-- Every entry of the first dict is present in the second with an equal value. -/
def pyEqFields : Fields → Fields → Bool
  | .nil, _ => true
  | .cons k v rest, m =>
      (match dictLookup m k with
       | some w => pyEq v w
       | none => false) && pyEqFields rest m
end

mutual
/-- Python ordering (`<` / `>`) on the modelled values: defined between
numbers (with `bool` coerced to `0`/`1`), between strings, and
lexicographically between lists; every other combination raises
`TypeError`, as the interpreter does. -/
def pyCmp : Value → Value → Except PyErr Ordering
  | .num a, .num b => .ok (compare a b)
  | .num a, .bool b => .ok (compare a (if b then (1 : Int) else 0))
  | .bool a, .num b => .ok (compare (if a then (1 : Int) else 0) b)
  | .bool a, .bool b => .ok (compare (if a then (1 : Int) else 0) (if b then (1 : Int) else 0))
  | .str a, .str b => .ok (compare a b)
  | .seq a, .seq b => pyCmpList a b
  | _, _ => .error .typeError

/-- Python list comparison: the first non-`==` pair decides; a strict
common run makes the shorter list smaller. -/
def pyCmpList : VList → VList → Except PyErr Ordering
  | .nil, .nil => .ok .eq
  | .nil, .cons _ _ => .ok .lt
  | .cons _ _, .nil => .ok .gt
  | .cons a as, .cons b bs =>
      if pyEq a b then pyCmpList as bs else pyCmp a b
end

/-- Python hashability of the modelled values: lists and dicts are
unhashable, everything else is hashable. -/
def hashable : Value → Bool
  | .seq _ => false
  | .map _ => false
  | _ => true

/-- A value usable as a stored `_id` key: present (non-`None`) and hashable. -/
def validId : Value → Bool
  | .bool _ => true
  | .num _ => true
  | .str _ => true
  | _ => false

/-- `path.split(".")` on the character level (the separator is never empty). -/
def splitAux : List Char → List Char → List String
  | [], acc => [String.mk acc.reverse]
  | c :: cs, acc =>
      if c == '.' then String.mk acc.reverse :: splitAux cs []
      else splitAux cs (c :: acc)

/-- `path.split(".")`. -/
def splitDot (s : String) : List String := splitAux s.data []

/-- Walk of `_get_nested_value`: descend through dict entries, returning
Python `None` as soon as a segment is missing or the current value is not
a dict. -/
def getParts : Value → List String → Value
  | cur, [] => cur
  | cur, p :: ps =>
      match cur with
      | .map m =>
          match dictLookup m p with
          | some v => getParts v ps
          | none => Value.null
      | _ => Value.null

/-- `_get_nested_value(doc, path)`. -/
def getNested (d : Fields) (path : String) : Value :=
  getParts (.map d) (splitDot path)

/-- Walk of `_set_nested_value`: create an empty dict at every missing or
non-dict intermediate segment, then assign at the final segment. -/
def setParts : Fields → List String → Value → Fields
  | d, [], _ => d
  | d, [p], v => dictSet d p v
  | d, p :: ps, v =>
      dictSet d p (.map (setParts
        (match dictLookup d p with
         | some (.map m) => m
         | _ => Fields.nil) ps v))

/-- `_set_nested_value(doc, path, value)`. -/
def setNested (d : Fields) (path : String) (v : Value) : Fields :=
  setParts d (splitDot path) v

/-- Existence of a list element satisfying a predicate. -/
def vlAny : VList → (Value → Bool) → Bool
  | .nil, _ => false
  | .cons x xs, p => p x || vlAny xs p

/-- Existence of a dict key satisfying a predicate. -/
def fieldsAnyKey : Fields → (String → Bool) → Bool
  | .nil, _ => false
  | .cons k _ rest, p => p k || fieldsAnyKey rest p

/-- Whether `pat` starts the character list `s`. -/
def charsStart : List Char → List Char → Bool
  | [], _ => true
  | _ :: _, [] => false
  | a :: as, b :: bs => a == b && charsStart as bs

/-- Whether `pat` occurs inside the character list `s`. -/
def charsWithin (pat : List Char) : List Char → Bool
  | [] => charsStart pat []
  | c :: rest => charsStart pat (c :: rest) || charsWithin pat rest

/-- Python `x in container`: membership for lists, key membership for
dicts (requiring `x` hashable), substring test for strings; `TypeError`
otherwise. -/
def pyIn (x container : Value) : Except PyErr Bool :=
  match container with
  | .seq os => .ok (vlAny os (fun o => pyEq x o))
  | .map m =>
      if hashable x then .ok (fieldsAnyKey m (fun k => pyEq x (.str k)))
      else .error .typeError
  | .str s =>
      match x with
      | .str xs => .ok (charsWithin xs.data s.data)
      | _ => .error .typeError
  | _ => .error .typeError

/-- `any(item in options for item in value)`: short-circuit at the first
member found, propagating the first raised error. -/
def pyAnyIn : VList → Value → Except PyErr Bool
  | .nil, _ => .ok false
  | .cons x xs, options =>
      match pyIn x options with
      | .error e => .error e
      | .ok true => .ok true
      | .ok false => pyAnyIn xs options

/-- The `$gte` clause of `_matches_criteria`: passes when the operator is
absent; fails (without raising) when the value is `None`; otherwise passes
exactly when the value is not less than the bound, raising `TypeError` on
non-comparable values. -/
def gteClause (value : Value) (m : Fields) : Except PyErr Bool :=
  match dictLookup m "$gte" with
  | some bound =>
      match value with
      | .null => .ok false
      | v =>
          match pyCmp v bound with
          | .error e => .error e
          | .ok o => .ok (!(o == Ordering.lt))
  | none => .ok true

/-- The `$lte` clause of `_matches_criteria`, symmetric to `gteClause`. -/
def lteClause (value : Value) (m : Fields) : Except PyErr Bool :=
  match dictLookup m "$lte" with
  | some bound =>
      match value with
      | .null => .ok false
      | v =>
          match pyCmp v bound with
          | .error e => .error e
          | .ok o => .ok (!(o == Ordering.gt))
  | none => .ok true

/-- `_matches_criteria(value, criteria)`: an operator object with `$in`
returns the `$in` result immediately; otherwise the `$gte` and `$lte`
clauses are checked in turn and an operator object with neither matches;
a non-dict criterion is a Python `==` equality test. -/
def matchesCriteria (value criteria : Value) : Except PyErr Bool :=
  match criteria with
  | .map m =>
      match dictLookup m "$in" with
      | some options =>
          match value with
          | .seq items => pyAnyIn items options
          | v => pyIn v options
      | none =>
          match gteClause value m with
          | .error e => .error e
          | .ok false => .ok false
          | .ok true =>
              match lteClause value m with
              | .error e => .error e
              | .ok false => .ok false
              | .ok true => .ok true
  | c => .ok (pyEq value c)

/-- `_matches_query(doc, query)`: every `(path, criterion)` pair must
match; evaluation stops at the first failing pair or raised error. -/
def matchesQuery (d : Fields) : Fields → Except PyErr Bool
  | .nil => .ok true
  | .cons key crit rest =>
      match matchesCriteria (getNested d key) crit with
      | .error e => .error e
      | .ok false => .ok false
      | .ok true => matchesQuery d rest

/-- One `$push` field entry: an absent or `None` field becomes a fresh
list holding the value; an existing list gets the value appended; any
other existing value makes the entry a no-op. -/
def applyPush (d : Fields) (field : String) (v : Value) : Fields × Bool :=
  match getNested d field with
  | .null => (setNested d field (.seq (.cons v .nil)), true)
  | .seq xs => (setNested d field (.seq (vappend xs (.cons v .nil))), true)
  | _ => (d, false)

/-- All field entries of a `$push` operator, in dict order. -/
def applyPushes : Fields → Fields → Fields × Bool
  | d, .nil => (d, false)
  | d, .cons f v rest =>
      match applyPush d f v with
      | (d1, c1) =>
          match applyPushes d1 rest with
          | (d2, c2) => (d2, c1 || c2)

/-- The filtered list `[item for item in xs if item != v]` of `$pull`. -/
def vfilterNe : VList → Value → VList
  | .nil, _ => .nil
  | .cons x xs, v =>
      if pyEq x v then vfilterNe xs v else .cons x (vfilterNe xs v)

/-- One `$pull` field entry: a list field keeps exactly the elements not
`==` to the value, counting as a change only when the length shrank; a
non-list field is a no-op. -/
def applyPull (d : Fields) (field : String) (v : Value) : Fields × Bool :=
  match getNested d field with
  | .seq xs =>
      match vfilterNe xs v with
      | ys =>
          if vlength ys == vlength xs then (d, false)
          else (setNested d field (.seq ys), true)
  | _ => (d, false)

/-- All field entries of a `$pull` operator, in dict order. -/
def applyPulls : Fields → Fields → Fields × Bool
  | d, .nil => (d, false)
  | d, .cons f v rest =>
      match applyPull d f v with
      | (d1, c1) =>
          match applyPulls d1 rest with
          | (d2, c2) => (d2, c1 || c2)

/-- The `$push` half of `_apply_update`: apply every `$push` field entry
when the operator is present; a `$push` value that is not a dict raises
`AttributeError` (the code iterates `.items()` over it). -/
def pushPart (d : Fields) (u : Fields) : Except PyErr (Fields × Bool) :=
  match dictLookup u "$push" with
  | some (.map pushFields) => .ok (applyPushes d pushFields)
  | some _ => .error .attributeError
  | none => .ok (d, false)

/-- `_apply_update(doc, update)`: apply the `$push` entries, then the
`$pull` entries; the update changed the document when any entry did. -/
def applyUpdate (d : Fields) (u : Fields) : Except PyErr (Fields × Bool) :=
  match pushPart d u with
  | .error e => .error e
  | .ok (d1, c1) =>
      match dictLookup u "$pull" with
      | some (.map pullFields) =>
          match applyPulls d1 pullFields with
          | (d2, c2) => .ok (d2, c1 || c2)
      | some _ => .error .attributeError
      | none => .ok (d1, c1)

/-- The store: an insertion-ordered mapping from primary key to document. -/
structure Collection : Type where
  docs : List (Value × Fields)

/-- `self._docs[k] = d`: overwrite the first key `==` to `k` in place,
keeping the original key object, or append a fresh entry. -/
def storeSet : List (Value × Fields) → Value → Fields → List (Value × Fields)
  | [], k, d => [(k, d)]
  | (k0, d0) :: rest, k, d =>
      if pyEq k0 k then (k0, d) :: rest else (k0, d0) :: storeSet rest k d

/-- `insert_one(doc)`: reject a document whose `_id` is absent or `None`
with `ValueError`; an unhashable `_id` (list or dict) raises `TypeError`
at the dict assignment; otherwise store the document under its `_id`. -/
def insert_one (c : Collection) (d : Fields) : Except PyErr Collection :=
  match dictGet d "_id" with
  | .null => .error .valueError
  | k => if hashable k then .ok ⟨storeSet c.docs k d⟩ else .error .typeError

/-- Scan of `find_one`: the first matching document, in store order. -/
def findOneScan (q : Fields) : List (Value × Fields) → Except PyErr (Option Fields)
  | [] => .ok none
  | (_, d) :: rest =>
      match matchesQuery d q with
      | .error e => .error e
      | .ok true => .ok (some d)
      | .ok false => findOneScan q rest

/-- `find_one(query)`. -/
def find_one (c : Collection) (q : Fields) : Except PyErr (Option Fields) :=
  findOneScan q c.docs

/-- Scan of `update_one`: apply the update to the first matching document
and stop, reporting `1` exactly when the update changed it. -/
def updateScan (q u : Fields) : List (Value × Fields) → Except PyErr (Nat × List (Value × Fields))
  | [] => .ok (0, [])
  | (k, d) :: rest =>
      match matchesQuery d q with
      | .error e => .error e
      | .ok true =>
          match applyUpdate d u with
          | .error e => .error e
          | .ok (d1, ch) => .ok (if ch then 1 else 0, (k, d1) :: rest)
      | .ok false =>
          match updateScan q u rest with
          | .error e => .error e
          | .ok (r, rest1) => .ok (r, (k, d) :: rest1)

/-- `update_one(query, update)`: the returned number is the
`modified_count` of the `UpdateResult`. -/
def update_one (c : Collection) (q u : Fields) : Except PyErr (Nat × Collection) :=
  match updateScan q u c.docs with
  | .error e => .error e
  | .ok (r, l) => .ok (r, ⟨l⟩)

/-- `s.lstrip("$")`: drop every leading dollar sign. -/
def lstripDollar (s : String) : String :=
  String.mk (s.data.dropWhile (fun c => c == '$'))

/-- `_unwind(docs, path)`: a document whose value at `path` is a list is
emitted once per element with the field replaced by that element; any
other document is emitted once, unchanged. -/
def unwindDocs : List Fields → String → List Fields
  | [], _ => []
  | d :: ds, path =>
      (match getNested d path with
       | .seq xs => (vlistToList xs).map (fun item => setNested d path item)
       | _ => [d]) ++ unwindDocs ds path

/-- Key collection of `_group_by`: the distinct resolved keys in
first-seen order; an unhashable key raises `TypeError` at the dict
membership test. -/
def groupKeys : List Fields → String → List Value → Except PyErr (List Value)
  | [], _, acc => .ok acc
  | d :: ds, path, acc =>
      match getNested d path with
      | k =>
          if hashable k then
            groupKeys ds path (if acc.any (fun a => pyEq a k) then acc else acc ++ [k])
          else .error .typeError

/-- `_group_by(docs, path)`: one `{_id: key}` document per distinct key,
in first-seen order. -/
def groupBy (docs : List Fields) (path : String) : Except PyErr (List Fields) :=
  match groupKeys docs path [] with
  | .error e => .error e
  | .ok keys => .ok (keys.map (fun k => Fields.cons "_id" k Fields.nil))

/-- One pipeline stage of `aggregate`.  The `$sort` branch calls
`self._sort_docs`, a method that does not exist on the class (its
intended body is unreachable code placed after the `return` of
`_group_by`), so reaching it raises `AttributeError`; an unrecognized
stage raises `NotImplementedError`. -/
def runStage (docs : List Fields) (stage : Fields) : Except PyErr (List Fields) :=
  match dictLookup stage "$unwind" with
  | some (.str p) => .ok (unwindDocs docs (lstripDollar p))
  | some _ => .error .attributeError
  | none =>
      match dictLookup stage "$group" with
      | some (.map g) =>
          match dictLookup g "_id" with
          | some (.str gid) => groupBy docs (lstripDollar gid)
          | none => groupBy docs ""
          | some _ => .error .attributeError
      | some _ => .error .attributeError
      | none =>
          match dictLookup stage "$sort" with
          | some _ => .error .attributeError
          | none => .error .notImplementedError

/-- The stage loop of `aggregate`. -/
def runPipeline (docs : List Fields) : List Fields → Except PyErr (List Fields)
  | [] => .ok docs
  | st :: rest =>
      match runStage docs st with
      | .error e => .error e
      | .ok ds => runPipeline ds rest

/-- `aggregate(pipeline)` over the store contents. -/
def aggregate (c : Collection) (pipeline : List Fields) : Except PyErr (List Fields) :=
  runPipeline (c.docs.map Prod.snd) pipeline

/-- Canonical representation of a hashable non-`None` key: the integer a
bool or number hashes and compares as, or the string. -/
def keyRep : Value → Option (Int ⊕ String)
  | .bool b => some (.inl (if b then (1 : Int) else 0))
  | .num n => some (.inl n)
  | .str s => some (.inr s)
  | _ => none

/-- A key `==`-distinct (in both orders) from every key in the list. -/
def keyFresh (k : Value) : List Value → Bool
  | [] => true
  | a :: rest => !pyEq a k && !pyEq k a && keyFresh k rest

/-- Pairwise `==`-distinctness of the stored keys. -/
def keysDistinct : List Value → Bool
  | [] => true
  | a :: rest => keyFresh a rest && keysDistinct rest

/-- A store entry whose key is a usable `_id` and whose document carries
that key at its `_id` field. -/
def docKeyed (kd : Value × Fields) : Bool :=
  validId kd.1 && pyEq (dictGet kd.2 "_id") kd.1

/-- Store well-formedness: every entry is keyed by its document's `_id`
and keys are pairwise distinct under `==`.  `insert_one` establishes this
shape on every store it builds from an empty one. -/
def storeWF (l : List (Value × Fields)) : Bool :=
  l.all docKeyed && keysDistinct (l.map Prod.fst)

/-! Lemmas about `==` on hashable keys. -/

theorem pyEq_keyRep_right (a b : Value) (hb : validId b = true) :
    pyEq a b = true ↔ ∃ r, keyRep a = some r ∧ keyRep b = some r := by
  cases b <;> simp [validId] at hb <;>
    cases a <;> simp [pyEq, keyRep, beq_iff_eq] <;>
    first
    | exact eq_comm
    | (split_ifs <;> simp_all)

theorem pyEq_keyRep_left (a b : Value) (ha : validId a = true) :
    pyEq a b = true ↔ ∃ r, keyRep a = some r ∧ keyRep b = some r := by
  cases a <;> simp [validId] at ha <;>
    cases b <;> simp [pyEq, keyRep, beq_iff_eq] <;>
    first
    | exact eq_comm
    | (split_ifs <;> simp_all)

theorem pyEq_refl_validId (k : Value) (hk : validId k = true) : pyEq k k = true := by
  cases k <;> simp [validId] at hk <;> simp [pyEq]

theorem validId_hashable (k : Value) (hk : validId k = true) : hashable k = true := by
  cases k <;> simp [validId] at hk <;> simp [hashable]

theorem keyRep_some_validId (k : Value) (r : Int ⊕ String) (h : keyRep k = some r) :
    validId k = true := by
  cases k <;> simp [keyRep] at h <;> simp [validId]

/-! Lemmas about path resolution. -/

theorem getNested_id (d : Fields) : getNested d "_id" = dictGet d "_id" := by
  show getParts (.map d) (splitDot "_id") = dictGet d "_id"
  have h : splitDot "_id" = ["_id"] := rfl
  rw [h]
  cases h2 : dictLookup d "_id" <;> simp [getParts, dictGet, h2]

theorem matchesQuery_id (d : Fields) (k : Value) (hk : validId k = true) :
    matchesQuery d (.cons "_id" k .nil) = .ok (pyEq (dictGet d "_id") k) := by
  have hg : getNested d "_id" = dictGet d "_id" := getNested_id d
  have hcrit : matchesCriteria (getNested d "_id") k = .ok (pyEq (dictGet d "_id") k) := by
    cases k <;> simp [validId] at hk <;> simp [matchesCriteria, hg]
  simp only [matchesQuery, hcrit]
  cases hpe : pyEq (dictGet d "_id") k <;> simp [matchesQuery]

theorem idQuery_no_match (k : Value) (hk : validId k = true) (kd : Value × Fields)
    (hkeyed : docKeyed kd = true) (hf : pyEq kd.1 k = false) :
    matchesQuery kd.2 (.cons "_id" k .nil) = .ok false := by
  rw [matchesQuery_id kd.2 k hk]
  simp [docKeyed] at hkeyed
  cases hpe : pyEq (dictGet kd.2 "_id") k
  · rfl
  · exfalso
    obtain ⟨r1, hx1, hk1⟩ := (pyEq_keyRep_right _ _ hkeyed.1).mp hkeyed.2
    obtain ⟨r2, hx2, hk2⟩ := (pyEq_keyRep_right _ _ hk).mp hpe
    rw [hx1] at hx2
    obtain rfl := Option.some.inj hx2
    have hkk : pyEq kd.1 k = true := (pyEq_keyRep_right _ _ hk).mpr ⟨r1, hk1, hk2⟩
    rw [hkk] at hf
    simp at hf

/-! Lemmas about the store mapping. -/

theorem insert_one_ok (c : Collection) (d : Fields) (k : Value)
    (hid : dictGet d "_id" = k) (hk : validId k = true) :
    insert_one c d = .ok ⟨storeSet c.docs k d⟩ := by
  unfold insert_one
  rw [hid]
  cases k <;> simp [validId] at hk <;> simp [hashable]

theorem storeSet_split (l : List (Value × Fields)) (k : Value) (d : Fields) :
    (∃ l1 k0 d0 l2, l = l1 ++ (k0, d0) :: l2 ∧ storeSet l k d = l1 ++ (k0, d) :: l2 ∧
        pyEq k0 k = true ∧ ∀ kd ∈ l1, pyEq kd.1 k = false)
    ∨ ((∀ kd ∈ l, pyEq kd.1 k = false) ∧ storeSet l k d = l ++ [(k, d)]) := by
  induction l with
  | nil => right; simp [storeSet]
  | cons hd rest ih =>
      obtain ⟨k0, d0⟩ := hd
      cases hpe : pyEq k0 k with
      | true =>
          left
          exact ⟨[], k0, d0, rest, rfl, by simp [storeSet, hpe], hpe, by simp⟩
      | false =>
          rcases ih with ⟨l1, k1, d1, l2, hsplit, hset, heq, hfresh⟩ | ⟨hfresh, hset⟩
          · left
            refine ⟨(k0, d0) :: l1, k1, d1, l2, by simp [hsplit], ?_, heq, ?_⟩
            · simp [storeSet, hpe, hset]
            · intro kd hkd
              rcases List.mem_cons.mp hkd with rfl | h
              · exact hpe
              · exact hfresh kd h
          · right
            constructor
            · intro kd hkd
              rcases List.mem_cons.mp hkd with rfl | h
              · exact hpe
              · exact hfresh kd h
            · simp [storeSet, hpe, hset]

theorem storeSet_append_skip (l1 rest : List (Value × Fields)) (k : Value) (d : Fields)
    (h : ∀ kd ∈ l1, pyEq kd.1 k = false) :
    storeSet (l1 ++ rest) k d = l1 ++ storeSet rest k d := by
  induction l1 with
  | nil => simp
  | cons hd tl ih =>
      obtain ⟨k0, d0⟩ := hd
      have hpe : pyEq k0 k = false := h (k0, d0) (List.mem_cons_self _ _)
      simp only [List.cons_append, storeSet, hpe]
      simp [ih fun kd hkd => h kd (List.mem_cons_of_mem _ hkd)]

theorem findOneScan_append (q : Fields) (l1 rest : List (Value × Fields))
    (h : ∀ kd ∈ l1, matchesQuery kd.2 q = .ok false) :
    findOneScan q (l1 ++ rest) = findOneScan q rest := by
  induction l1 with
  | nil => simp
  | cons hd tl ih =>
      obtain ⟨k0, d0⟩ := hd
      have hm : matchesQuery d0 q = .ok false := h (k0, d0) (List.mem_cons_self _ _)
      simp only [List.cons_append, findOneScan, hm]
      exact ih fun kd hkd => h kd (List.mem_cons_of_mem _ hkd)

theorem keyFresh_append (k : Value) (xs ys : List Value) :
    keyFresh k (xs ++ ys) = (keyFresh k xs && keyFresh k ys) := by
  induction xs with
  | nil => simp [keyFresh]
  | cons a rest ih =>
      simp only [List.cons_append, keyFresh, ih]
      cases pyEq a k <;> cases pyEq k a <;> simp [ih]

theorem keysDistinct_append_one (ks : List Value) (k : Value)
    (hd : keysDistinct ks = true)
    (hf : ∀ a ∈ ks, pyEq a k = false ∧ pyEq k a = false) :
    keysDistinct (ks ++ [k]) = true := by
  induction ks with
  | nil => simp [keysDistinct, keyFresh]
  | cons a rest ih =>
      simp only [keysDistinct, Bool.and_eq_true] at hd
      have ha := hf a (List.mem_cons_self _ _)
      have h2 : keyFresh a [k] = true := by simp [keyFresh, ha.1, ha.2]
      have h3 : keysDistinct (rest ++ [k]) = true :=
        ih hd.2 fun b hb => hf b (List.mem_cons_of_mem _ hb)
      simp [keysDistinct, keyFresh_append, hd.1, h2, h3]

theorem keyFresh_mem (k : Value) (ks : List Value) (h : keyFresh k ks = true)
    (a : Value) (ha : a ∈ ks) : pyEq a k = false ∧ pyEq k a = false := by
  induction ks with
  | nil => cases ha
  | cons b rest ih =>
      simp only [keyFresh, Bool.and_eq_true, Bool.not_eq_true'] at h
      rcases List.mem_cons.mp ha with rfl | hmem
      · exact ⟨h.1.1, h.1.2⟩
      · exact ih h.2 hmem

theorem keysDistinct_middle (ks1 : List Value) (k0 : Value) (ks2 : List Value)
    (h : keysDistinct (ks1 ++ k0 :: ks2) = true) : keyFresh k0 ks2 = true := by
  induction ks1 with
  | nil =>
      simp only [List.nil_append, keysDistinct, Bool.and_eq_true] at h
      exact h.1
  | cons a rest ih =>
      simp only [List.cons_append, keysDistinct, Bool.and_eq_true] at h
      exact ih h.2

theorem pyEq_comm_validId (a k : Value) (hk : validId k = true) : pyEq a k = pyEq k a := by
  cases h1 : pyEq a k with
  | true =>
      obtain ⟨r, hra, hrk⟩ := (pyEq_keyRep_right a k hk).mp h1
      exact ((pyEq_keyRep_left k a hk).mpr ⟨r, hrk, hra⟩).symm
  | false =>
      cases h2 : pyEq k a with
      | false => rfl
      | true =>
          obtain ⟨r, hrk, hra⟩ := (pyEq_keyRep_left k a hk).mp h2
          rw [(pyEq_keyRep_right a k hk).mpr ⟨r, hra, hrk⟩] at h1
          simp at h1

theorem pyEq_false_of_fresh (x k0 k : Value) (hk : validId k = true)
    (hk0v : validId k0 = true) (hk0 : pyEq k0 k = true) (hfr : pyEq x k0 = false) :
    pyEq x k = false := by
  cases hx : pyEq x k with
  | false => rfl
  | true =>
      exfalso
      obtain ⟨r, hrx, hrk⟩ := (pyEq_keyRep_right x k hk).mp hx
      obtain ⟨r2, hrk0, hrk2⟩ := (pyEq_keyRep_right k0 k hk).mp hk0
      rw [hrk] at hrk2
      obtain rfl := Option.some.inj hrk2
      rw [(pyEq_keyRep_right x k0 hk0v).mpr ⟨r, hrx, hrk0⟩] at hfr
      simp at hfr

theorem filter_of_all_false (p : (Value × Fields) → Bool) (l : List (Value × Fields))
    (h : ∀ kd ∈ l, p kd = false) : l.filter p = [] := by
  induction l with
  | nil => rfl
  | cons a rest ih =>
      have ha : p a = false := h a (List.mem_cons_self _ _)
      simp [List.filter_cons, ha, ih fun kd hkd => h kd (List.mem_cons_of_mem _ hkd)]

/-- C5: on a well-formed store, inserting a document `d` whose `_id` is a
usable key `k` succeeds, and `find_one({_id: k})` then returns exactly
`d` (the model is pure, so the returned document is structurally equal to
the inserted one and, matching the `deepcopy` in `insert_one` and
`find_one`, independent of every caller-held value). -/
theorem insert_find_one_roundtrip (c : Collection) (d : Fields) (k : Value)
    (hwf : storeWF c.docs = true) (hid : dictGet d "_id" = k) (hk : validId k = true) :
    ∃ c1, insert_one c d = .ok c1 ∧ find_one c1 (.cons "_id" k .nil) = .ok (some d) := by
  refine ⟨⟨storeSet c.docs k d⟩, insert_one_ok c d k hid hk, ?_⟩
  simp only [storeWF, Bool.and_eq_true, List.all_eq_true] at hwf
  have hmatch : matchesQuery d (.cons "_id" k .nil) = .ok true := by
    rw [matchesQuery_id d k hk, hid, pyEq_refl_validId k hk]
  show findOneScan (.cons "_id" k .nil) (storeSet c.docs k d) = .ok (some d)
  rcases storeSet_split c.docs k d with ⟨l1, k0, d0, l2, hsplit, hset, heq, hfresh⟩ |
    ⟨hfresh, hset⟩
  · rw [hset]
    rw [findOneScan_append _ l1 _ fun kd hkd =>
      idQuery_no_match k hk kd (hwf.1 kd (hsplit ▸ List.mem_append_left _ hkd)) (hfresh kd hkd)]
    simp [findOneScan, hmatch]
  · rw [hset]
    rw [findOneScan_append _ c.docs _ fun kd hkd =>
      idQuery_no_match k hk kd (hwf.1 kd hkd) (hfresh kd hkd)]
    simp [findOneScan, hmatch]

/-- C5 witness: a concrete well-formed store, document and key for which
the insert-then-find round trip is checked. -/
theorem insert_find_one_roundtrip_witness :
    storeWF [((Value.str "B"), Fields.cons "_id" (.str "B") .nil)] = true ∧
    ∃ c1,
      insert_one ⟨[((Value.str "B"), Fields.cons "_id" (.str "B") .nil)]⟩
        (Fields.cons "_id" (.str "A") (.cons "x" (.num 3) .nil)) = .ok c1 ∧
      find_one c1 (.cons "_id" (.str "A") .nil) =
        .ok (some (Fields.cons "_id" (.str "A") (.cons "x" (.num 3) .nil))) :=
  ⟨by decide,
   insert_find_one_roundtrip ⟨[((Value.str "B"), Fields.cons "_id" (.str "B") .nil)]⟩
     (Fields.cons "_id" (.str "A") (.cons "x" (.num 3) .nil)) (.str "A")
     (by decide) rfl rfl⟩

/-- C6: on a well-formed store, inserting `d1` and then `d2`, both with
the same usable `_id` key `k`, raises no duplicate-key error; afterwards
exactly one document is stored under a key `==` to `k`, it is `d2`, and
the store keys stay pairwise distinct. -/
theorem insert_insert_overwrites (c : Collection) (d1 d2 : Fields) (k : Value)
    (hwf : storeWF c.docs = true)
    (h1 : dictGet d1 "_id" = k) (h2 : dictGet d2 "_id" = k) (hk : validId k = true) :
    ∃ c1 c2, insert_one c d1 = .ok c1 ∧ insert_one c1 d2 = .ok c2 ∧
      (c2.docs.filter (fun kd => pyEq kd.1 k)).map Prod.snd = [d2] ∧
      keysDistinct (c2.docs.map Prod.fst) = true := by
  refine ⟨⟨storeSet c.docs k d1⟩, ⟨storeSet (storeSet c.docs k d1) k d2⟩,
    insert_one_ok c d1 k h1 hk, insert_one_ok _ d2 k h2 hk, ?_⟩
  simp only [storeWF, Bool.and_eq_true, List.all_eq_true] at hwf
  rcases storeSet_split c.docs k d1 with ⟨l1, k0, d0, l2, hsplit, hset, heq, hfresh⟩ |
    ⟨hfresh, hset⟩
  · have hk0v : validId k0 = true := by
      have := hwf.1 (k0, d0) (hsplit ▸ List.mem_append_right _ (List.mem_cons_self _ _))
      simp only [docKeyed, Bool.and_eq_true] at this
      exact this.1
    have hset2 : storeSet (storeSet c.docs k d1) k d2 = l1 ++ (k0, d2) :: l2 := by
      rw [hset, storeSet_append_skip l1 _ k d2 hfresh]
      simp [storeSet, heq]
    have hl2 : ∀ kd ∈ l2, pyEq kd.1 k = false := by
      intro kd hkd
      have hdist := hwf.2
      rw [hsplit] at hdist
      have hfr := keysDistinct_middle (l1.map Prod.fst) k0 (l2.map Prod.fst)
        (by simpa using hdist)
      have := keyFresh_mem k0 (l2.map Prod.fst) hfr kd.1 (List.mem_map_of_mem _ hkd)
      exact pyEq_false_of_fresh kd.1 k0 k hk hk0v heq this.1
    rw [hset2]
    constructor
    · rw [List.filter_append, filter_of_all_false _ l1 fun kd hkd => hfresh kd hkd]
      simp only [List.nil_append, List.filter_cons, heq]
      rw [filter_of_all_false _ l2 hl2]
      simp
    · have : (l1 ++ (k0, d2) :: l2).map Prod.fst = c.docs.map Prod.fst := by
        rw [hsplit]; simp
      rw [this]
      exact hwf.2
  · have hset2 : storeSet (storeSet c.docs k d1) k d2 = c.docs ++ [(k, d2)] := by
      rw [hset, storeSet_append_skip c.docs _ k d2 hfresh]
      simp [storeSet, pyEq_refl_validId k hk]
    rw [hset2]
    constructor
    · rw [List.filter_append, filter_of_all_false _ c.docs fun kd hkd => hfresh kd hkd]
      simp [List.filter_cons, pyEq_refl_validId k hk]
    · simp only [List.map_append]
      refine keysDistinct_append_one (c.docs.map Prod.fst) k hwf.2 fun a ha => ?_
      obtain ⟨kd, hkd, rfl⟩ := List.mem_map.mp ha
      exact ⟨hfresh kd hkd, by rw [← pyEq_comm_validId kd.1 k hk]; exact hfresh kd hkd⟩

/-- C6 witness: a concrete well-formed store and two documents sharing an
`_id`, checked through the theorem. -/
theorem insert_insert_overwrites_witness :
    storeWF [((Value.str "A"), Fields.cons "_id" (.str "A") .nil)] = true ∧
    ∃ c1 c2,
      insert_one ⟨[((Value.str "A"), Fields.cons "_id" (.str "A") .nil)]⟩
        (Fields.cons "_id" (.str "A") (.cons "x" (.num 1) .nil)) = .ok c1 ∧
      insert_one c1 (Fields.cons "_id" (.str "A") (.cons "x" (.num 2) .nil)) = .ok c2 ∧
      (c2.docs.filter (fun kd => pyEq kd.1 (.str "A"))).map Prod.snd =
        [Fields.cons "_id" (.str "A") (.cons "x" (.num 2) .nil)] ∧
      keysDistinct (c2.docs.map Prod.fst) = true :=
  ⟨by decide,
   insert_insert_overwrites ⟨[((Value.str "A"), Fields.cons "_id" (.str "A") .nil)]⟩
     (Fields.cons "_id" (.str "A") (.cons "x" (.num 1) .nil))
     (Fields.cons "_id" (.str "A") (.cons "x" (.num 2) .nil)) (.str "A")
     (by decide) rfl rfl rfl⟩

/-! Lemmas about the update applier: a report of "not modified" means the
document is unchanged. -/

theorem applyPush_unchanged (d : Fields) (f : String) (v : Value)
    (h : (applyPush d f v).2 = false) : (applyPush d f v).1 = d := by
  unfold applyPush at h ⊢
  cases hval : getNested d f <;> simp [hval] at h ⊢

theorem applyPushes_unchanged :
    (m : Fields) → (d : Fields) → (applyPushes d m).2 = false → (applyPushes d m).1 = d
  | .nil, _, _ => rfl
  | .cons f v rest, d, h => by
      simp only [applyPushes] at h ⊢
      cases hp : applyPush d f v with
      | mk d1 c1 =>
          cases hps : applyPushes d1 rest with
          | mk d2 c2 =>
              simp only [hp, hps] at h ⊢
              simp only [Bool.or_eq_false_iff] at h
              have hd1 : d1 = d := by
                have := applyPush_unchanged d f v (by rw [hp]; exact h.1)
                rw [hp] at this
                exact this
              have hd2 : d2 = d1 := by
                have := applyPushes_unchanged rest d1 (by rw [hps]; exact h.2)
                rw [hps] at this
                exact this
              simp [hd1, hd2]

theorem applyPull_unchanged (d : Fields) (f : String) (v : Value)
    (h : (applyPull d f v).2 = false) : (applyPull d f v).1 = d := by
  unfold applyPull at h ⊢
  cases hval : getNested d f <;> simp [hval] at h ⊢
  split <;> simp_all

theorem applyPulls_unchanged :
    (m : Fields) → (d : Fields) → (applyPulls d m).2 = false → (applyPulls d m).1 = d
  | .nil, _, _ => rfl
  | .cons f v rest, d, h => by
      simp only [applyPulls] at h ⊢
      cases hp : applyPull d f v with
      | mk d1 c1 =>
          cases hps : applyPulls d1 rest with
          | mk d2 c2 =>
              simp only [hp, hps] at h ⊢
              simp only [Bool.or_eq_false_iff] at h
              have hd1 : d1 = d := by
                have := applyPull_unchanged d f v (by rw [hp]; exact h.1)
                rw [hp] at this
                exact this
              have hd2 : d2 = d1 := by
                have := applyPulls_unchanged rest d1 (by rw [hps]; exact h.2)
                rw [hps] at this
                exact this
              simp [hd1, hd2]

theorem pushPart_unchanged (d u d1 : Fields)
    (h : pushPart d u = .ok (d1, false)) : d1 = d := by
  unfold pushPart at h
  cases hl : dictLookup u "$push" with
  | none => rw [hl] at h; simp at h; exact h.symm
  | some w =>
      rw [hl] at h
      cases w <;> simp at h
      case map pf =>
        have h1 : (applyPushes d pf).1 = d1 := by rw [h]
        have h2 : (applyPushes d pf).2 = false := by rw [h]
        rw [← h1]
        exact applyPushes_unchanged pf d h2

theorem applyUpdate_unchanged (d u d1 : Fields)
    (h : applyUpdate d u = .ok (d1, false)) : d1 = d := by
  unfold applyUpdate at h
  cases hpp : pushPart d u with
  | error e => rw [hpp] at h; simp at h
  | ok pr =>
      obtain ⟨dp, cp⟩ := pr
      rw [hpp] at h
      cases hl : dictLookup u "$pull" with
      | none =>
          rw [hl] at h
          simp at h
          rw [← h.1]
          exact pushPart_unchanged d u dp (by rw [hpp, h.2])
      | some w =>
          rw [hl] at h
          cases w <;> simp at h
          case map pf =>
            cases hps : applyPulls dp pf with
            | mk d2 c2 =>
                rw [hps] at h
                simp at h
                have hor := h.2
                have hdp : dp = d := pushPart_unchanged d u dp (by rw [hpp, hor.1])
                have hpull : d2 = dp := by
                  have := applyPulls_unchanged pf dp (by rw [hps]; exact hor.2)
                  rw [hps] at this
                  exact this
                rw [← h.1, hpull, hdp]

theorem updateScan_spec (q u : Fields) :
    ∀ (l : List (Value × Fields)) (r : Nat) (l1 : List (Value × Fields)),
      updateScan q u l = .ok (r, l1) →
      l1.length = l.length ∧
      ((∀ kd ∈ l, matchesQuery kd.2 q = .ok false) → l1 = l ∧ r = 0) ∧
      ∃ i, (∀ j, j ≠ i → l1[j]? = l[j]?) ∧
           (∀ j, j < i → ∀ kd, l[j]? = some kd → matchesQuery kd.2 q = .ok false) ∧
           ((l.length ≤ i ∧ l1 = l ∧ r = 0) ∨
            (∃ k d d1 ch, l[i]? = some (k, d) ∧ matchesQuery d q = .ok true ∧
               applyUpdate d u = .ok (d1, ch) ∧ l1[i]? = some (k, d1) ∧
               r = (if ch then 1 else 0) ∧ (ch = false → d1 = d))) := by
  intro l
  induction l with
  | nil =>
      intro r l1 h
      simp only [updateScan, Except.ok.injEq, Prod.mk.injEq] at h
      obtain ⟨rfl, rfl⟩ := h
      refine ⟨rfl, fun _ => ⟨rfl, rfl⟩, 0, fun j _ => rfl,
        fun j hj => absurd hj (by omega), Or.inl ⟨by simp, rfl, rfl⟩⟩
  | cons hd rest ih =>
      obtain ⟨k, d⟩ := hd
      intro r l1 h
      simp only [updateScan] at h
      cases hm : matchesQuery d q with
      | error e => rw [hm] at h; exact absurd h (by simp)
      | ok b =>
          rw [hm] at h
          cases b with
          | true =>
              cases hau : applyUpdate d u with
              | error e => rw [hau] at h; exact absurd h (by simp)
              | ok pr =>
                  obtain ⟨d1, ch⟩ := pr
                  rw [hau] at h
                  simp only [Except.ok.injEq, Prod.mk.injEq] at h
                  obtain ⟨rfl, rfl⟩ := h
                  refine ⟨by simp, ?_, 0, ?_, by omega, Or.inr ⟨k, d, d1, ch, by simp, hm, hau,
                    by simp, rfl, fun hc => applyUpdate_unchanged d u d1 (hc ▸ hau)⟩⟩
                  · intro hall
                    have := hall (k, d) (List.mem_cons_self _ _)
                    rw [hm] at this
                    simp at this
                  · intro j hj
                    cases j with
                    | zero => exact absurd rfl hj
                    | succ jj => simp
          | false =>
              cases hscan : updateScan q u rest with
              | error e => rw [hscan] at h; exact absurd h (by simp)
              | ok pr =>
                  obtain ⟨r0, rest1⟩ := pr
                  rw [hscan] at h
                  simp only [Except.ok.injEq, Prod.mk.injEq] at h
                  obtain ⟨rfl, rfl⟩ := h
                  obtain ⟨hlen, hnone, i0, hframe, hfirst, hdisj⟩ := ih r0 rest1 hscan
                  refine ⟨by simp [hlen], ?_, i0 + 1, ?_, ?_, ?_⟩
                  · intro hall
                    have hr := hnone fun kd hkd => hall kd (List.mem_cons_of_mem _ hkd)
                    simp [hr.1, hr.2]
                  · intro j hj
                    cases j with
                    | zero => simp
                    | succ jj =>
                        simp only [List.getElem?_cons_succ]
                        exact hframe jj (by omega)
                  · intro j hj kd hkd
                    cases j with
                    | zero =>
                        simp only [List.getElem?_cons_zero, Option.some.injEq] at hkd
                        rw [← hkd, hm]
                    | succ jj =>
                        simp only [List.getElem?_cons_succ] at hkd
                        exact hfirst jj (by omega) kd hkd
                  · rcases hdisj with ⟨hge, rfl, rfl⟩ | ⟨k2, d2, d3, ch, hat, hmm, hau, hat1, hr, hch⟩
                    · exact Or.inl ⟨by simp; omega, rfl, rfl⟩
                    · exact Or.inr ⟨k2, d2, d3, ch, by simpa using hat, hmm, hau,
                        by simpa using hat1, hr, hch⟩

/-- C7: whenever `update_one` returns (rather than raising), the
resulting store has the same size, every position other than the first
match is unchanged, every position before it failed the query, and the
returned `modified_count` is `1` exactly when `_apply_update` reported a
change of the matched document (`0` on an unchanged match); when no
document matches, the whole store is unchanged and the count is `0`. -/
theorem update_one_touches_at_most_one (c : Collection) (q u : Fields) (r : Nat)
    (c1 : Collection) (h : update_one c q u = .ok (r, c1)) :
    c1.docs.length = c.docs.length ∧
    ((∀ kd ∈ c.docs, matchesQuery kd.2 q = .ok false) → c1.docs = c.docs ∧ r = 0) ∧
    ∃ i, (∀ j, j ≠ i → c1.docs[j]? = c.docs[j]?) ∧
         (∀ j, j < i → ∀ kd, c.docs[j]? = some kd → matchesQuery kd.2 q = .ok false) ∧
         ((c.docs.length ≤ i ∧ c1.docs = c.docs ∧ r = 0) ∨
          (∃ k d d1 ch, c.docs[i]? = some (k, d) ∧ matchesQuery d q = .ok true ∧
             applyUpdate d u = .ok (d1, ch) ∧ c1.docs[i]? = some (k, d1) ∧
             r = (if ch then 1 else 0) ∧ (ch = false → d1 = d))) := by
  unfold update_one at h
  cases hscan : updateScan q u c.docs with
  | error e => rw [hscan] at h; exact absurd h (by simp)
  | ok pr =>
      obtain ⟨r0, l1⟩ := pr
      rw [hscan] at h
      simp only [Except.ok.injEq, Prod.mk.injEq] at h
      obtain ⟨rfl, rfl⟩ := h
      exact updateScan_spec q u c.docs r0 l1 hscan

/-- C7 witness: a concrete store of two documents where the second one
matches and a `$push` changes it; the returned count is `1` and the
store size is preserved. -/
theorem update_one_touches_at_most_one_witness :
    update_one
      ⟨[((Value.str "A"), Fields.cons "_id" (.str "A") .nil),
        ((Value.str "B"), Fields.cons "_id" (.str "B") (.cons "xs" (.seq .nil) .nil))]⟩
      (.cons "_id" (.str "B") .nil)
      (.cons "$push" (.map (.cons "xs" (.num 1) .nil)) .nil) =
      .ok (1, ⟨[((Value.str "A"), Fields.cons "_id" (.str "A") .nil),
        ((Value.str "B"),
          Fields.cons "_id" (.str "B") (.cons "xs" (.seq (.cons (.num 1) .nil)) .nil))]⟩) ∧
    (⟨[((Value.str "A"), Fields.cons "_id" (.str "A") .nil),
        ((Value.str "B"),
          Fields.cons "_id" (.str "B") (.cons "xs" (.seq (.cons (.num 1) .nil)) .nil))]⟩ :
      Collection).docs.length =
    (⟨[((Value.str "A"), Fields.cons "_id" (.str "A") .nil),
        ((Value.str "B"), Fields.cons "_id" (.str "B") (.cons "xs" (.seq .nil) .nil))]⟩ :
      Collection).docs.length :=
  ⟨rfl,
   (update_one_touches_at_most_one
     ⟨[((Value.str "A"), Fields.cons "_id" (.str "A") .nil),
       ((Value.str "B"), Fields.cons "_id" (.str "B") (.cons "xs" (.seq .nil) .nil))]⟩
     (.cons "_id" (.str "B") .nil)
     (.cons "$push" (.map (.cons "xs" (.num 1) .nil)) .nil) 1
     ⟨[((Value.str "A"), Fields.cons "_id" (.str "A") .nil),
       ((Value.str "B"),
         Fields.cons "_id" (.str "B") (.cons "xs" (.seq (.cons (.num 1) .nil)) .nil))]⟩
     rfl).1⟩

/-- C1: the Aggregation Interpreter cannot sort: a pipeline containing a
`$sort` stage raises `AttributeError` because the `_sort_docs` method it
calls does not exist on the class (its intended body is unreachable dead
code after the `return` of `_group_by`); no stable sort is performed. -/
theorem sort_stage_raises :
    aggregate ⟨[((Value.str "A"), Fields.cons "_id" (.str "A")
        (.cons "days" (.num 2) .nil))]⟩
      [Fields.cons "$sort" (.map (.cons "days" (.num 1) .nil)) .nil] =
      .error .attributeError ∧
    aggregate ⟨[]⟩ [Fields.cons "$sort" (.map (.cons "days" (.num (-1)) .nil)) .nil] =
      .error .attributeError := ⟨rfl, rfl⟩

/-- C2 counterexample: the value `5` fails the criterion `{$gte: 10}` on
its own, yet the criterion `{$in: [5], $gte: 10}` accepts it — the `$in`
branch returns immediately and the bound is never evaluated, so the
operators are not conjoined as the claim states. -/
theorem in_shortcircuit_cex :
    matchesCriteria (.num 5) (.map (.cons "$gte" (.num 10) .nil)) = .ok false ∧
    matchesCriteria (.num 5)
      (.map (.cons "$in" (.seq (.cons (.num 5) .nil)) (.cons "$gte" (.num 10) .nil))) =
      .ok true := ⟨rfl, rfl⟩

/-- C2 amended: when `$in` is present the criterion's result is exactly
the `$in` membership result and any `$gte`/`$lte` in the same operator
object are ignored; when `$in` is absent, the present `$gte` and `$lte`
operators are conjoined. -/
theorem matchesCriteria_operator_semantics (v : Value) (m : Fields) :
    (∀ opts, dictLookup m "$in" = some opts →
       matchesCriteria v (.map m) =
         (match v with
          | .seq items => pyAnyIn items opts
          | w => pyIn w opts)) ∧
    (dictLookup m "$in" = none →
       (matchesCriteria v (.map m) = .ok true ↔
         (gteClause v m = .ok true ∧ lteClause v m = .ok true))) := by
  constructor
  · intro opts hin
    simp [matchesCriteria, hin]
  · intro hin
    simp only [matchesCriteria, hin]
    cases hg : gteClause v m with
    | error e => simp
    | ok b =>
        cases b with
        | false => simp
        | true =>
            cases hl : lteClause v m with
            | error e => simp
            | ok b2 => cases b2 <;> simp

/-- C2 witness: the amended semantics checked at a criterion combining
`$in` with `$gte` and at a pure range criterion. -/
theorem matchesCriteria_operator_semantics_witness :
    matchesCriteria (.num 5)
        (.map (.cons "$in" (.seq (.cons (.num 5) .nil)) (.cons "$gte" (.num 10) .nil))) =
      pyIn (.num 5) (.seq (.cons (.num 5) .nil)) ∧
    (matchesCriteria (.num 7) (.map (.cons "$gte" (.num 5) (.cons "$lte" (.num 10) .nil))) =
        .ok true ↔
      (gteClause (.num 7) (.cons "$gte" (.num 5) (.cons "$lte" (.num 10) .nil)) = .ok true ∧
       lteClause (.num 7) (.cons "$gte" (.num 5) (.cons "$lte" (.num 10) .nil)) = .ok true)) :=
  ⟨(matchesCriteria_operator_semantics (.num 5)
      (.cons "$in" (.seq (.cons (.num 5) .nil)) (.cons "$gte" (.num 10) .nil))).1
      (.seq (.cons (.num 5) .nil)) rfl,
   (matchesCriteria_operator_semantics (.num 7)
      (.cons "$gte" (.num 5) (.cons "$lte" (.num 10) .nil))).2 rfl⟩

/-- C3: a `$gte` comparison between a string value and a number bound is
not a defined non-match: it raises an uncaught `TypeError`, both at the
criterion level and through a full `find_one` query evaluation. -/
theorem gte_type_mismatch_raises :
    matchesCriteria (.str "abc") (.map (.cons "$gte" (.num 5) .nil)) = .error .typeError ∧
    find_one ⟨[((Value.str "A"),
        Fields.cons "_id" (.str "A") (.cons "x" (.str "abc") .nil))]⟩
      (.cons "x" (.map (.cons "$gte" (.num 5) .nil)) .nil) = .error .typeError ∧
    matchesCriteria (.num 3) (.map (.cons "$lte" (.str "zz") .nil)) = .error .typeError :=
  ⟨rfl, rfl, rfl⟩

/-- C8 counterexample: the document `{_id: None}` does contain the field
`_id`, yet `insert_one` rejects it with the invalid-document error — the
code conflates a `None`-valued `_id` with a missing one. -/
theorem insert_null_id_cex :
    dictLookup (Fields.cons "_id" Value.null .nil) "_id" = some Value.null ∧
    insert_one ⟨[]⟩ (Fields.cons "_id" Value.null .nil) = .error .valueError := ⟨rfl, rfl⟩

/-- C8 amended: `insert_one` succeeds exactly when the document's `_id`
resolves to a hashable non-`None` value (bool, number or string); an
absent or `None` `_id` raises the invalid-document `ValueError`, and a
list- or dict-valued `_id` raises `TypeError` at the key assignment. -/
theorem insert_one_validity (c : Collection) (d : Fields) :
    ((∃ c1, insert_one c d = .ok c1) ↔ validId (dictGet d "_id") = true) ∧
    (dictGet d "_id" = Value.null → insert_one c d = .error .valueError) ∧
    (∀ xs, dictGet d "_id" = .seq xs → insert_one c d = .error .typeError) ∧
    (∀ mm, dictGet d "_id" = .map mm → insert_one c d = .error .typeError) := by
  unfold insert_one
  cases hg : dictGet d "_id" <;> simp [validId, hashable]

/-- C8 witness: the amended characterization applied to a succeeding
document, a `None` `_id` and a list `_id`. -/
theorem insert_one_validity_witness :
    (∃ c1, insert_one ⟨[]⟩ (Fields.cons "_id" (.num 7) .nil) = .ok c1) ∧
    insert_one ⟨[]⟩ (Fields.cons "name" (.str "x") .nil) = .error .valueError ∧
    insert_one ⟨[]⟩ (Fields.cons "_id" (.seq .nil) .nil) = .error .typeError :=
  ⟨(insert_one_validity ⟨[]⟩ (Fields.cons "_id" (.num 7) .nil)).1.mpr rfl,
   (insert_one_validity ⟨[]⟩ (Fields.cons "name" (.str "x") .nil)).2.1 rfl,
   (insert_one_validity ⟨[]⟩ (Fields.cons "_id" (.seq .nil) .nil)).2.2.1 .nil rfl⟩

/-- C9: the pipeline `[{$unwind: "$days"}, {$group: {_id: "$days"}}]`
over the documents `{_id: "A", days: ["Mon", "Tue"]}` and
`{_id: "B", days: ["Tue"]}` (in that order) yields exactly
`{_id: "Mon"}` then `{_id: "Tue"}`, in first-seen order. -/
theorem unwind_group_pipeline_example :
    aggregate
      ⟨[((Value.str "A"), Fields.cons "_id" (.str "A")
          (.cons "days" (.seq (.cons (.str "Mon") (.cons (.str "Tue") .nil))) .nil)),
        ((Value.str "B"), Fields.cons "_id" (.str "B")
          (.cons "days" (.seq (.cons (.str "Tue") .nil)) .nil))]⟩
      [Fields.cons "$unwind" (.str "$days") .nil,
       Fields.cons "$group" (.map (.cons "_id" (.str "$days") .nil)) .nil] =
      .ok [Fields.cons "_id" (.str "Mon") .nil, Fields.cons "_id" (.str "Tue") .nil] := rfl

/-- C10: an operator-object criterion containing none of `$in`, `$gte`,
`$lte` is always satisfied, so a query whose criterion is a literal
mapping (an attempted equality test against a nested document) matches
every document regardless of the field's value. -/
theorem empty_operator_object_matches (d : Fields) (f : String) (v : Value) (m : Fields)
    (h1 : dictLookup m "$in" = none) (h2 : dictLookup m "$gte" = none)
    (h3 : dictLookup m "$lte" = none) :
    matchesCriteria v (.map m) = .ok true ∧
    matchesQuery d (.cons f (.map m) .nil) = .ok true := by
  have hc : ∀ w, matchesCriteria w (.map m) = .ok true := fun w => by
    simp [matchesCriteria, gteClause, lteClause, h1, h2, h3]
  exact ⟨hc v, by simp [matchesQuery, hc (getNested d f)]⟩

/-- C10 witness: a literal-mapping criterion matching a document whose
field holds an unrelated value. -/
theorem empty_operator_object_matches_witness :
    matchesCriteria (.num 42) (.map (.cons "days" (.seq .nil) .nil)) = .ok true ∧
    matchesQuery (Fields.cons "_id" (.str "A") (.cons "sched" (.num 5) .nil))
      (.cons "sched" (.map (.cons "days" (.seq .nil) .nil)) .nil) = .ok true :=
  empty_operator_object_matches (Fields.cons "_id" (.str "A") (.cons "sched" (.num 5) .nil))
    "sched" (.num 42) (.cons "days" (.seq .nil) .nil) rfl rfl rfl

/-! Lemmas supporting the push/pull round-trip analysis. -/

theorem splitAux_ne_nil : (cs : List Char) → (acc : List Char) → splitAux cs acc ≠ []
  | [], acc => by simp [splitAux]
  | c :: cs, acc => by
      by_cases h : (c == '.') = true
      · simp [splitAux, h]
      · simp only [splitAux, h]
        simp only [Bool.false_eq_true, if_false]
        exact splitAux_ne_nil cs (c :: acc)

theorem splitDot_ne_nil (s : String) : splitDot s ≠ [] :=
  splitAux_ne_nil s.data []

theorem dictLookup_dictSet_self : (d : Fields) → (p : String) → (v : Value) →
    dictLookup (dictSet d p v) p = some v
  | .nil, p, v => by simp [dictSet, dictLookup]
  | .cons k w rest, p, v => by
      cases h : (k == p) with
      | true => simp [dictSet, dictLookup, h]
      | false => simp [dictSet, dictLookup, h, dictLookup_dictSet_self rest p v]

theorem dictLookup_dictSet_ne : (d : Fields) → (p key : String) → (v : Value) →
    (p == key) = false → dictLookup (dictSet d p v) key = dictLookup d key
  | .nil, p, key, v, h => by simp [dictSet, dictLookup, h]
  | .cons k w rest, p, key, v, h => by
      cases hk : (k == p) with
      | true =>
          have : k = p := eq_of_beq hk
          subst this
          simp [dictSet, dictLookup, h]
      | false => simp [dictSet, dictLookup, hk, dictLookup_dictSet_ne rest p key v h]

theorem getParts_setParts (ps : List String) : ∀ (d : Fields) (p : String) (v : Value),
    getParts (.map (setParts d (p :: ps) v)) (p :: ps) = v := by
  induction ps with
  | nil =>
      intro d p v
      simp [setParts, getParts, dictLookup_dictSet_self]
  | cons q qs ih =>
      intro d p v
      simp only [setParts, getParts, dictLookup_dictSet_self]
      exact ih _ q v

theorem getNested_setNested (d : Fields) (f : String) (v : Value) :
    getNested (setNested d f v) f = v := by
  unfold getNested setNested
  cases hs : splitDot f with
  | nil => exact absurd hs (splitDot_ne_nil f)
  | cons p ps => exact getParts_setParts ps d p v

theorem setParts_head_set (d : Fields) (p : String) (ps : List String) (w : Value) :
    ∃ z, setParts d (p :: ps) w = dictSet d p z := by
  cases ps with
  | nil => exact ⟨w, rfl⟩
  | cons q qs => exact ⟨_, rfl⟩

theorem setNested_keeps_scalar_id (d : Fields) (f : String) (w : Value) (xs : VList)
    (hf : getNested d f = .seq xs) (r : Int ⊕ String)
    (hid : keyRep (dictGet d "_id") = some r) :
    dictGet (setNested d f w) "_id" = dictGet d "_id" := by
  unfold getNested setNested at *
  cases hs : splitDot f with
  | nil => exact absurd hs (splitDot_ne_nil f)
  | cons p ps =>
      rw [hs] at hf
      by_cases hp : (p == "_id") = true
      · exfalso
        have hpe : p = "_id" := eq_of_beq hp
        subst hpe
        simp only [getParts] at hf
        cases hl : dictLookup d "_id" with
        | none =>
            rw [hl] at hf
            exact Value.noConfusion hf
        | some kv =>
            rw [hl] at hf
            have hkv : dictGet d "_id" = kv := by simp [dictGet, hl]
            rw [hkv] at hid
            cases kv <;> simp [keyRep] at hid <;>
              cases ps <;> simp [getParts] at hf
      · have hp2 : (p == "_id") = false := by
          cases h2 : (p == "_id") with
          | true => exact absurd h2 hp
          | false => rfl
        obtain ⟨z, hz⟩ := setParts_head_set d p ps w
        rw [hz]
        unfold dictGet
        rw [dictLookup_dictSet_ne d p "_id" z hp2]

theorem vlength_vappend : (a b : VList) → vlength (vappend a b) = vlength a + vlength b
  | .nil, b => by simp [vappend, vlength]
  | .cons x xs, b => by
      simp only [vappend, vlength, vlength_vappend xs b]
      omega

theorem vfilterNe_append_self :
    (xs : VList) → (v : Value) → vlAny xs (fun x => pyEq x v) = false → pyEq v v = true →
    vfilterNe (vappend xs (.cons v .nil)) v = xs
  | .nil, v, _, hv => by simp [vappend, vfilterNe, hv]
  | .cons x xs, v, h, hv => by
      simp only [vlAny, Bool.or_eq_false_iff] at h
      simp [vappend, vfilterNe, h.1, vfilterNe_append_self xs v h.2 hv]

theorem updateScan_append_skip (q u : Fields) (l1 rest : List (Value × Fields))
    (h : ∀ kd ∈ l1, matchesQuery kd.2 q = .ok false) :
    updateScan q u (l1 ++ rest) =
      match updateScan q u rest with
      | .error e => .error e
      | .ok (r, rest1) => .ok (r, l1 ++ rest1) := by
  induction l1 with
  | nil =>
      simp only [List.nil_append]
      cases hscan : updateScan q u rest with
      | error e => rfl
      | ok pr => obtain ⟨r, rest1⟩ := pr; rfl
  | cons hd tl ih =>
      obtain ⟨k0, d0⟩ := hd
      have hm : matchesQuery d0 q = .ok false := h (k0, d0) (List.mem_cons_self _ _)
      have ihh := ih fun kd hkd => h kd (List.mem_cons_of_mem _ hkd)
      cases hscan : updateScan q u rest with
      | error e =>
          simp only [List.cons_append, updateScan, hm, List.append_eq, ihh, hscan]
      | ok pr =>
          obtain ⟨r, rest1⟩ := pr
          simp only [List.cons_append, updateScan, hm, List.append_eq, ihh, hscan]

theorem pyEq_chain (x k0 k : Value) (hk : validId k = true) (hk0v : validId k0 = true)
    (h1 : pyEq x k0 = true) (h2 : pyEq k0 k = true) : pyEq x k = true := by
  obtain ⟨r1, hx1, hk01⟩ := (pyEq_keyRep_right x k0 hk0v).mp h1
  obtain ⟨r2, hk02, hk2⟩ := (pyEq_keyRep_right k0 k hk).mp h2
  rw [hk01] at hk02
  obtain rfl := Option.some.inj hk02
  exact (pyEq_keyRep_right x k hk).mpr ⟨r1, hx1, hk2⟩

/-- C4 counterexample: on a document whose field already holds `["x"]`,
`$push` of `"x"` followed by `$pull` of `"x"` leaves the field `[]`, not
`["x"]` — `$pull` removes every element equal to the value, so the
round trip fails when the field already contains the pushed value. -/
theorem push_pull_roundtrip_cex :
    getNested (Fields.cons "_id" (.str "A")
        (.cons "f" (.seq (.cons (.str "x") .nil)) .nil)) "f" =
      .seq (.cons (.str "x") .nil) ∧
    update_one
      ⟨[((Value.str "A"), Fields.cons "_id" (.str "A")
          (.cons "f" (.seq (.cons (.str "x") .nil)) .nil))]⟩
      (.cons "_id" (.str "A") .nil)
      (.cons "$push" (.map (.cons "f" (.str "x") .nil)) .nil) =
      .ok (1, ⟨[((Value.str "A"), Fields.cons "_id" (.str "A")
          (.cons "f" (.seq (.cons (.str "x") (.cons (.str "x") .nil))) .nil))]⟩) ∧
    update_one
      ⟨[((Value.str "A"), Fields.cons "_id" (.str "A")
          (.cons "f" (.seq (.cons (.str "x") (.cons (.str "x") .nil))) .nil))]⟩
      (.cons "_id" (.str "A") .nil)
      (.cons "$pull" (.map (.cons "f" (.str "x") .nil)) .nil) =
      .ok (1, ⟨[((Value.str "A"), Fields.cons "_id" (.str "A")
          (.cons "f" (.seq .nil) .nil))]⟩) ∧
    Value.seq VList.nil ≠ Value.seq (.cons (.str "x") .nil) :=
  ⟨rfl, rfl, rfl, by simp⟩

/-- C4 amended: `$push` of `v` followed by `$pull` of `v` on the same
field restores the field when its prior value was a list containing no
element equal to `v` (and `v` equals itself, as every value stored by
this program does): both calls return `modified_count` 1, every other
stored document is untouched, and the field's value is back to its
pre-push list.  When the prior list already contains `v`, the pull also
removes those copies (see the counterexample), and an absent field ends
as an empty list rather than absent. -/
theorem push_pull_roundtrip (l1 l2 : List (Value × Fields)) (k k0 : Value) (d : Fields)
    (f : String) (v : Value) (xs : VList)
    (hwf : storeWF (l1 ++ (k0, d) :: l2) = true)
    (hk : validId k = true)
    (hk0 : pyEq k0 k = true)
    (hfresh : ∀ kd ∈ l1, pyEq kd.1 k = false)
    (hf : getNested d f = .seq xs)
    (hxs : vlAny xs (fun x => pyEq x v) = false)
    (hv : pyEq v v = true) :
    ∃ d1 d2,
      update_one ⟨l1 ++ (k0, d) :: l2⟩ (.cons "_id" k .nil)
          (.cons "$push" (.map (.cons f v .nil)) .nil) = .ok (1, ⟨l1 ++ (k0, d1) :: l2⟩) ∧
      update_one ⟨l1 ++ (k0, d1) :: l2⟩ (.cons "_id" k .nil)
          (.cons "$pull" (.map (.cons f v .nil)) .nil) = .ok (1, ⟨l1 ++ (k0, d2) :: l2⟩) ∧
      getNested d2 f = getNested d f := by
  simp only [storeWF, Bool.and_eq_true, List.all_eq_true] at hwf
  have hkd0 : docKeyed (k0, d) = true :=
    hwf.1 (k0, d) (List.mem_append_right _ (List.mem_cons_self _ _))
  simp only [docKeyed, Bool.and_eq_true] at hkd0
  have hk0v : validId k0 = true := hkd0.1
  have hxid : pyEq (dictGet d "_id") k0 = true := hkd0.2
  have hmatchd : matchesQuery d (.cons "_id" k .nil) = .ok true := by
    rw [matchesQuery_id d k hk, pyEq_chain (dictGet d "_id") k0 k hk hk0v hxid hk0]
  have hskip : ∀ kd ∈ l1, matchesQuery kd.2 (.cons "_id" k .nil) = .ok false := fun kd hkd =>
    idQuery_no_match k hk kd (hwf.1 kd (List.mem_append_left _ hkd)) (hfresh kd hkd)
  obtain ⟨r0, hrep, hrk0⟩ := (pyEq_keyRep_right (dictGet d "_id") k0 hk0v).mp hxid
  have hpushApply : applyUpdate d (.cons "$push" (.map (.cons f v .nil)) .nil) =
      .ok (setNested d f (.seq (vappend xs (.cons v .nil))), true) := by
    have e1 : dictLookup (Fields.cons "$push" (.map (Fields.cons f v .nil)) .nil) "$push" =
        some (.map (Fields.cons f v .nil)) := rfl
    have e2 : dictLookup (Fields.cons "$push" (.map (Fields.cons f v .nil)) .nil) "$pull" =
        none := rfl
    simp [applyUpdate, pushPart, e1, e2, applyPushes, applyPush, hf]
  have hscan1 : updateScan (.cons "_id" k .nil) (.cons "$push" (.map (.cons f v .nil)) .nil)
      (l1 ++ (k0, d) :: l2) =
      .ok (1, l1 ++ (k0, setNested d f (.seq (vappend xs (.cons v .nil)))) :: l2) := by
    rw [updateScan_append_skip _ _ l1 _ hskip]
    simp [updateScan, hmatchd, hpushApply]
  refine ⟨setNested d f (.seq (vappend xs (.cons v .nil))),
    setNested (setNested d f (.seq (vappend xs (.cons v .nil)))) f (.seq xs), ?_, ?_, ?_⟩
  · unfold update_one
    rw [hscan1]
  · have hid1 : dictGet (setNested d f (.seq (vappend xs (.cons v .nil)))) "_id" =
        dictGet d "_id" :=
      setNested_keeps_scalar_id d f (.seq (vappend xs (.cons v .nil))) xs hf r0 hrep
    have hmatchd1 : matchesQuery (setNested d f (.seq (vappend xs (.cons v .nil))))
        (.cons "_id" k .nil) = .ok true := by
      rw [matchesQuery_id _ k hk, hid1,
        pyEq_chain (dictGet d "_id") k0 k hk hk0v hxid hk0]
    have hget1 : getNested (setNested d f (.seq (vappend xs (.cons v .nil)))) f =
        .seq (vappend xs (.cons v .nil)) := getNested_setNested d f _
    have hfilter : vfilterNe (vappend xs (.cons v .nil)) v = xs :=
      vfilterNe_append_self xs v hxs hv
    have hlen : (vlength (vfilterNe (vappend xs (.cons v .nil)) v) ==
        vlength (vappend xs (.cons v .nil))) = false := by
      rw [hfilter, vlength_vappend]
      simp [vlength, beq_iff_eq]
    have hpullApply : applyUpdate (setNested d f (.seq (vappend xs (.cons v .nil))))
        (.cons "$pull" (.map (.cons f v .nil)) .nil) =
        .ok (setNested (setNested d f (.seq (vappend xs (.cons v .nil)))) f (.seq xs),
          true) := by
      have e1 : dictLookup (Fields.cons "$pull" (.map (Fields.cons f v .nil)) .nil) "$push" =
          none := rfl
      have e2 : dictLookup (Fields.cons "$pull" (.map (Fields.cons f v .nil)) .nil) "$pull" =
          some (.map (Fields.cons f v .nil)) := rfl
      simp [applyUpdate, pushPart, e1, e2, applyPulls, applyPull, hget1, hlen, hfilter]
      rw [vlength_vappend]
      simp [vlength]
    have hscan2 : updateScan (.cons "_id" k .nil) (.cons "$pull" (.map (.cons f v .nil)) .nil)
        (l1 ++ (k0, setNested d f (.seq (vappend xs (.cons v .nil)))) :: l2) =
        .ok (1, l1 ++ (k0,
          setNested (setNested d f (.seq (vappend xs (.cons v .nil)))) f (.seq xs)) :: l2) := by
      rw [updateScan_append_skip _ _ l1 _ hskip]
      simp [updateScan, hmatchd1, hpullApply]
    unfold update_one
    rw [hscan2]
  · rw [getNested_setNested _ f (.seq xs), hf]

/-- C4 witness: the amended round trip on a concrete store whose field
holds `[9]` with pushed value `"x"`. -/
theorem push_pull_roundtrip_witness :
    storeWF [((Value.str "A"), Fields.cons "_id" (.str "A")
        (.cons "f" (.seq (.cons (.num 9) .nil)) .nil))] = true ∧
    ∃ d1 d2,
      update_one ⟨[((Value.str "A"), Fields.cons "_id" (.str "A")
          (.cons "f" (.seq (.cons (.num 9) .nil)) .nil))]⟩ (.cons "_id" (.str "A") .nil)
          (.cons "$push" (.map (.cons "f" (.str "x") .nil)) .nil) =
          .ok (1, ⟨[((Value.str "A"), d1)]⟩) ∧
      update_one ⟨[((Value.str "A"), d1)]⟩ (.cons "_id" (.str "A") .nil)
          (.cons "$pull" (.map (.cons "f" (.str "x") .nil)) .nil) =
          .ok (1, ⟨[((Value.str "A"), d2)]⟩) ∧
      getNested d2 "f" = getNested (Fields.cons "_id" (.str "A")
          (.cons "f" (.seq (.cons (.num 9) .nil)) .nil)) "f" :=
  ⟨by decide,
   push_pull_roundtrip [] [] (.str "A") (.str "A")
     (Fields.cons "_id" (.str "A") (.cons "f" (.seq (.cons (.num 9) .nil)) .nil))
     "f" (.str "x") (.cons (.num 9) .nil)
     (by decide) rfl (by decide) (fun kd hkd => absurd hkd (List.not_mem_nil kd))
     rfl (by decide) (by decide)⟩

end DbSpec
